import Mathlib

/-! CMSSW geometry fragment: `DetGeomDesc` and `CTPPSPixelTopology`

A shallow embedding of

* `Geometry/VeryForwardGeometryBuilder/interface/DetGeomDesc.h`
  (the node class `DetGeomDesc`, its accessors, `getDiamondDimensions`, and the
  comparator `DetGeomDescCompare`), and
* `Geometry/VeryForwardGeometry/interface/CTPPSPixelTopology.h`
  (the pixel-count constants and `isPixelHit`),

followed by the properties proved about them.

Conventions of the embedding:

* `std::string` is the list of its bytes, compared the way `std::string::compare`
  does (byte by byte as unsigned values, a proper prefix being smaller);
* `int` is `Int`, `unsigned short` is a `Nat` reduced modulo `2 ^ 16`;
* a `double` that is only stored and handed back is carried by its bit pattern, and a
  `float` argument by its 32-bit pattern;
* the arithmetic of `isPixelHit` is IEEE-754: `float` is binary32, `double` is binary64,
  every operation rounds to nearest with ties to even, and the conversion of a floating
  value to `int` is truncation toward zero;
* a `const` member function that writes to the message logger returns the value, the
  object after the call and the entries it emitted.
-/

namespace CMSSW

/-! ## Data model of `DetGeomDesc.h` -/

/-- One `char` of a `std::string`, as the unsigned value `std::char_traits<char>` compares. -/
abbrev Byte := Fin 256

/-- A `std::string`: the sequence of its bytes. -/
abbrev StdString := List Byte

/-- The bytes of a string literal whose characters are all ASCII. -/
def ascii (s : String) : StdString :=
  s.data.map (fun c => Fin.ofNat c.toNat)

/-- `operator<` on `std::string`, i.e. `a.compare(b) < 0`: the first differing byte decides,
and when one string is a prefix of the other the shorter one is smaller. -/
def strLt : StdString → StdString → Bool
  | [], [] => false
  | [], _ :: _ => true
  | _ :: _, [] => false
  | x :: xs, y :: ys =>
    if x < y then true else if y < x then false else strLt xs ys

/-- A `double` that is stored and returned but never computed with: its 64-bit pattern. -/
structure Double where
  bits : Nat
  deriving DecidableEq, Repr

/-- A `float`: its 32-bit pattern. -/
structure CFloat where
  bits : Nat
  deriving DecidableEq, Repr

/-- Modelled from the spec: the detector identifier `DetId`
(`DataFormats/DetId/interface/DetId.h` is not among the sources). The spec calls it an
"opaque integer encoding a sensor's position in the detector read-out scheme", default
zero, and orders nodes "by identifier ordering": a `DetId` is its raw 32-bit integer. -/
structure DetId where
  rawId : Nat
  deriving DecidableEq, Repr

/-- Modelled from the spec: `DetId::operator!=`, inequality of the raw integers. -/
def DetId.ne (a b : DetId) : Bool := a.rawId != b.rawId

/-- Modelled from the spec: `DetId::operator<`, the order of the raw integers. -/
def DetId.lt (a b : DetId) : Bool := decide (a.rawId < b.rawId)

/-- The struct `DiamondDimensions`. -/
structure DiamondDimensions where
  xHalfWidth : Double
  yHalfWidth : Double
  zHalfWidth : Double
  deriving DecidableEq, Repr

/-- The placement vector `DetGeomDesc::Translation` (three Cartesian components). -/
structure Translation where
  x : Double
  y : Double
  z : Double
  deriving DecidableEq, Repr

/-- The rotation `DetGeomDesc::RotationMatrix`: the nine entries of a 3x3 matrix. -/
structure RotationMatrix where
  entries : List Double
  deriving DecidableEq, Repr

/-- A raw `DetGeomDesc*`, as the address it holds. -/
abbrev DetGeomDescPtr := Nat

/-- The private data members of class `DetGeomDesc`, in declaration order.
`m_container` is the `std::vector<DetGeomDesc*>` of child pointers. -/
structure DetGeomDesc where
  m_name : StdString
  m_copy : Int
  m_isDD4hep : Bool
  m_trans : Translation
  m_rot : RotationMatrix
  m_params : List Double
  m_isABox : Bool
  m_diamondBoxParams : DiamondDimensions
  m_sensorType : StdString
  m_geographicalID : DetId
  m_container : List DetGeomDescPtr
  m_z : CFloat
  deriving DecidableEq, Repr

namespace DetGeomDesc

/-- Accessor `name()`. -/
def name (d : DetGeomDesc) : StdString := d.m_name

/-- Accessor `copyno()`. -/
def copyno (d : DetGeomDesc) : Int := d.m_copy

/-- Accessor `isABox()`. -/
def isABox (d : DetGeomDesc) : Bool := d.m_isABox

/-- Accessor `geographicalID()`. -/
def geographicalID (d : DetGeomDesc) : DetId := d.m_geographicalID

end DetGeomDesc

/-- The comparator `DetGeomDescCompare::operator()`:
```
a.geographicalID() != b.geographicalID()
  ? a.geographicalID() < b.geographicalID()
  : (a.name() != b.name() ? a.name() < b.name() : a.copyno() < b.copyno())
```
-/
def DetGeomDescCompare (a b : DetGeomDesc) : Bool :=
  if DetId.ne a.geographicalID b.geographicalID then
    DetId.lt a.geographicalID b.geographicalID
  else if a.name != b.name then strLt a.name b.name
  else decide (a.copyno < b.copyno)

/-- The triple through which the comparator sees a node. -/
def DetGeomDesc.triple (d : DetGeomDesc) : DetId × StdString × Int :=
  (d.geographicalID, d.name, d.copyno)

/-! ## The message logger and `getDiamondDimensions` -/

/-- Severity of a message-logger entry. -/
inductive Severity where
  | error
  | warning
  | info
  deriving DecidableEq, Repr

/-- One item streamed into a logger statement with `<<`. -/
inductive LogItem where
  | str (s : StdString)
  | text (s : String)
  | detId (d : DetId)
  deriving DecidableEq, Repr

/-- Modelled from the spec: one entry of the message logger (`edm::LogError` and the
logger behind it are not among the sources). The spec says that the misuse is
"logged as an error, execution continues": a logger statement adds one entry, made of its
severity, its category string and the items streamed into it, and does nothing else. -/
structure LogEntry where
  severity : Severity
  category : String
  items : List LogItem
  deriving DecidableEq, Repr

/-- Modelled from the spec: the statement `edm::LogError(category) << item << ...`,
producing one entry of severity error. -/
def LogError (category : String) (items : List LogItem) : LogEntry :=
  { severity := Severity.error, category := category, items := items }

/-- Outcome of calling a member function on a node: the value returned, the node after
the call, and the logger entries emitted during the call, oldest first. -/
structure Call (α : Type) where
  ret : α
  self : DetGeomDesc
  log : List LogEntry

/-- The member function `DetGeomDesc::getDiamondDimensions() const`:
```
if (!isABox()) {
  edm::LogError("DetGeomDesc::getDiamondDimensions is not called on a box, for solid ")
      << name() << ", Id = " << geographicalID();
}
return m_diamondBoxParams;
```
-/
def DetGeomDesc.getDiamondDimensions (d : DetGeomDesc) : Call DiamondDimensions :=
  { ret := d.m_diamondBoxParams
    self := d
    log :=
      if !d.isABox then
        [LogError "DetGeomDesc::getDiamondDimensions is not called on a box, for solid "
          [LogItem.str d.name, LogItem.text ", Id = ", LogItem.detId d.geographicalID]]
      else [] }

/-! ## IEEE-754 arithmetic, as `isPixelHit` uses it

`float` is binary32 and `double` is binary64, both rounded to nearest with ties to even.
Every finite `float` and `double` is a whole number of units of `2 ^ -1074` (the smallest
positive `double`), so a finite value is kept as that integer and sums are exact before
they are rounded. -/

/-- The number of units of `2 ^ -1074` in the value 1. -/
def unitsPerOne : Nat := 2 ^ 1074

/-- A floating-point value: NaN, an infinity with its sign, or a finite value given as an
integer number of units of `2 ^ -1074`. The sign of a zero is not kept: no operation used
here (widening, adding a non-zero constant, narrowing, `<`, `>`) tells `-0` from `+0`. -/
inductive FP where
  | nan
  | inf (neg : Bool)
  | fin (n : Int)
  deriving DecidableEq, Repr

/-- Number of binary digits of `n`, computed with `fuel` halvings at most. -/
def bitLen : Nat → Nat → Nat
  | 0, _ => 0
  | fuel + 1, n => if n = 0 then 0 else bitLen fuel (n / 2) + 1

/-- Number of binary digits of `n` (0 for 0): `2 ^ (bitSize n - 1) ≤ n < 2 ^ bitSize n`. -/
def bitSize (n : Nat) : Nat := bitLen n n

/-- The integer nearest to `a / d`, a tie going to the even neighbour. -/
def roundQuot (a d : Nat) : Nat :=
  if 2 * (a % d) < d then a / d
  else if d < 2 * (a % d) then a / d + 1
  else if a / d % 2 = 0 then a / d
  else a / d + 1

/-- Round the non-negative magnitude `a / b` (in units) to a format with `p` significand
bits whose smallest quantum is `2 ^ qmin` units: the quantum is `2 ^ qe` with
`qe = max (bitSize ⌊a / b⌋ - p) qmin`, and the result is the nearest multiple of the
quantum, ties to even, with no bound on the exponent. -/
def roundMag (p qmin a b : Nat) : Nat :=
  roundQuot a (b * 2 ^ max (bitSize (a / b) - p) qmin) * 2 ^ max (bitSize (a / b) - p) qmin

/-- Round the magnitude `a / b` with sign `neg` to a format with `p` significand bits,
smallest quantum `2 ^ qmin` units and overflow threshold `2 ^ ovf` units: a rounded
magnitude that reaches the threshold becomes an infinity. -/
def roundFP (p qmin ovf : Nat) (neg : Bool) (a b : Nat) : FP :=
  if 2 ^ ovf ≤ roundMag p qmin a b then FP.inf neg
  else FP.fin (if neg then -(roundMag p qmin a b : Int) else (roundMag p qmin a b : Int))

/-- Round an exact number of units to `double`: 53 significand bits, quantum at least
`2 ^ -1074`, overflow at `2 ^ 1024`. -/
def toDouble (z : Int) : FP := roundFP 53 0 2098 (decide (z < 0)) z.natAbs 1

/-- Round an exact number of units to `float`: 24 significand bits, quantum at least
`2 ^ -149`, overflow at `2 ^ 128`. -/
def toFloat32 (z : Int) : FP := roundFP 24 925 1202 (decide (z < 0)) z.natAbs 1

/-- The `double` denoted by the decimal literal `a / b`, e.g. `0.1` is `dlit 1 10`. -/
def dlit (a b : Nat) : FP := roundFP 53 0 2098 false (a * unitsPerOne) b

/-- Conversion of an `int` to `double`. -/
def ofInt (k : Int) : FP := toDouble (k * unitsPerOne)

/-- Conversion of an `int` to `float`. -/
def ofIntF (k : Int) : FP := toFloat32 (k * unitsPerOne)

/-- Multiplication of two `double`s. -/
def dmul : FP → FP → FP
  | FP.fin a, FP.fin b =>
    roundFP 53 0 2098 (decide (a < 0) != decide (b < 0)) (a.natAbs * b.natAbs) unitsPerOne
  | FP.fin a, FP.inf s => if a = 0 then FP.nan else FP.inf (decide (a < 0) != s)
  | FP.inf s, FP.fin b => if b = 0 then FP.nan else FP.inf (s != decide (b < 0))
  | FP.inf s, FP.inf t => FP.inf (s != t)
  | _, _ => FP.nan

/-- Addition of two `double`s. -/
def dadd : FP → FP → FP
  | FP.fin a, FP.fin b => toDouble (a + b)
  | FP.fin _, FP.inf s => FP.inf s
  | FP.inf s, FP.fin _ => FP.inf s
  | FP.inf s, FP.inf t => if s = t then FP.inf s else FP.nan
  | _, _ => FP.nan

/-- Conversion of a `double` to `float` (the assignment `float t = <double>`). -/
def narrow : FP → FP
  | FP.fin n => toFloat32 n
  | v => v

/-- The value of a `float` given by its bit pattern: sign bit 31, exponent bits 30..23,
fraction bits 22..0. Widening this value to `double` is exact. -/
def decode (x : CFloat) : FP :=
  if x.bits / 2 ^ 23 % 256 = 255 then
    (if x.bits % 2 ^ 23 = 0 then FP.inf (decide (x.bits / 2 ^ 31 % 2 = 1)) else FP.nan)
  else if x.bits / 2 ^ 23 % 256 = 0 then
    FP.fin (if x.bits / 2 ^ 31 % 2 = 1 then -((x.bits % 2 ^ 23 * 2 ^ 925 : Nat) : Int)
      else ((x.bits % 2 ^ 23 * 2 ^ 925 : Nat) : Int))
  else
    FP.fin (if x.bits / 2 ^ 31 % 2 = 1 then
        -(((2 ^ 23 + x.bits % 2 ^ 23) * 2 ^ (x.bits / 2 ^ 23 % 256 + 924) : Nat) : Int)
      else (((2 ^ 23 + x.bits % 2 ^ 23) * 2 ^ (x.bits / 2 ^ 23 % 256 + 924) : Nat) : Int))

/-- Unary minus on a `float`: the sign bit is flipped. -/
def fneg (x : CFloat) : CFloat :=
  if x.bits / 2 ^ 31 % 2 = 1 then ⟨x.bits - 2 ^ 31⟩ else ⟨x.bits + 2 ^ 31⟩

/-- The comparison `a < b`; false when either side is NaN. -/
def flt : FP → FP → Bool
  | FP.fin a, FP.fin b => decide (a < b)
  | FP.fin _, FP.inf s => !s
  | FP.inf s, FP.fin _ => s
  | FP.inf s, FP.inf t => s && !t
  | _, _ => false

/-- The comparison `a > b`; false when either side is NaN. -/
def fgt (a b : FP) : Bool := flt b a

/-- Conversion of a `double` to `int`: truncation toward zero. (For NaN and the
infinities the conversion is undefined in C++; 0 stands for it here and is never used.) -/
def truncToInt : FP → Int
  | FP.fin n => Int.tdiv n unitsPerOne
  | _ => 0

/-- The value kept in a `float` after a `double` computation of exact magnitude `N`:
rounded to `double`, then to `float`. -/
def round2 (N : Nat) : Nat := roundMag 24 925 (roundMag 53 0 N 1) 1

/-- The real number a finite value stands for. -/
def realValue (n : Int) : ℚ := (n : ℚ) / (unitsPerOne : ℚ)

/-- A coordinate lies in the acceptance interval `[lo, hi]` of its axis, in the sense in
which the code tests it: it is finite with `lo ≤ value ≤ hi`, or it is NaN (every
comparison with NaN is false, so no test rejects it). An infinity never does. -/
def passes (lo hi : ℚ) : FP → Prop
  | FP.nan => True
  | FP.inf _ => False
  | FP.fin n => lo ≤ realValue n ∧ realValue n ≤ hi

/-! ## `CTPPSPixelTopology.h` -/

namespace CTPPSPixelTopology

/-- Storing a value in an `unsigned short`. -/
def toUShort (n : Nat) : Nat := n % 2 ^ 16

/-- Constant `no_of_pixels_simX_ = 160`. -/
def no_of_pixels_simX_ : Nat := toUShort 160

/-- Constant `no_of_pixels_simY_ = 156`. -/
def no_of_pixels_simY_ : Nat := toUShort 156

/-- Constant `no_of_pixels_ = 160*156`. -/
def no_of_pixels_ : Nat := toUShort (160 * 156)

/-- Accessor `detPixelSimXNo()`. -/
def detPixelSimXNo : Nat := no_of_pixels_simX_

/-- Accessor `detPixelSimYNo()`. -/
def detPixelSimYNo : Nat := no_of_pixels_simY_

/-- Accessor `detPixelNo()`. -/
def detPixelNo : Nat := no_of_pixels_

/-- The local `xModuleSize` of `isPixelHit`: `int xModuleSize = 0.1*79 + 0.2*2 + 0.1*79`,
a `double` expression truncated to `int`. -/
def xModuleSize : Int :=
  truncToInt (dadd (dadd (dmul (dlit 1 10) (ofInt 79)) (dmul (dlit 2 10) (ofInt 2)))
    (dmul (dlit 1 10) (ofInt 79)))

/-- The local `yModuleSize` of `isPixelHit`:
```
if (is3x2) yModuleSize = 0.15*51 + 0.3*2 + 0.15*50 + 0.3*2 + 0.15*51;
else       yModuleSize = 0.15*51 + 0.3*2 + 0.15*51;
```
-/
def yModuleSize (is3x2 : Bool) : Int :=
  if is3x2 then
    truncToInt (dadd (dadd (dadd (dadd (dmul (dlit 15 100) (ofInt 51))
      (dmul (dlit 3 10) (ofInt 2))) (dmul (dlit 15 100) (ofInt 50)))
      (dmul (dlit 3 10) (ofInt 2))) (dmul (dlit 15 100) (ofInt 51)))
  else
    truncToInt (dadd (dadd (dmul (dlit 15 100) (ofInt 51)) (dmul (dlit 3 10) (ofInt 2)))
      (dmul (dlit 15 100) (ofInt 51)))

/-- The `double` constant `79*0.1 + 0.2` added to the x coordinate. -/
def shiftX : FP := dadd (dmul (ofInt 79) (dlit 1 10)) (dlit 2 10)

/-- The `double` constant `0.15*51 + 0.3*2 + 0.15*25` added to the y coordinate. -/
def shiftY : FP :=
  dadd (dadd (dmul (dlit 15 100) (ofInt 51)) (dmul (dlit 3 10) (ofInt 2)))
    (dmul (dlit 15 100) (ofInt 25))

/-- The local `float tmpXlocalCoordinate = xLocalCoordinate + (79*0.1 + 0.2)`: the `float`
argument is widened to `double`, the sum is taken in `double` and narrowed to `float`. -/
def tmpXlocalCoordinate (xLocalCoordinate : CFloat) : FP :=
  narrow (dadd (decode xLocalCoordinate) shiftX)

/-- The local `float tmpYlocalCoordinate = yLocalCoordinate + (0.15*51 + 0.3*2 + 0.15*25)`. -/
def tmpYlocalCoordinate (yLocalCoordinate : CFloat) : FP :=
  narrow (dadd (decode yLocalCoordinate) shiftY)

/-- The static member function
`isPixelHit(float xLocalCoordinate, float yLocalCoordinate, bool is3x2)`:
```
if(tmpXlocalCoordinate<0) return false;
if(tmpYlocalCoordinate<0) return false;
...
if(tmpXlocalCoordinate>xModuleSize) return false;
if(tmpYlocalCoordinate>yModuleSize) return false;
return true;
```
In each comparison the `int` operand is converted to `float`. -/
def isPixelHit (xLocalCoordinate yLocalCoordinate : CFloat) (is3x2 : Bool) : Bool :=
  if flt (tmpXlocalCoordinate xLocalCoordinate) (ofIntF 0) then false
  else if flt (tmpYlocalCoordinate yLocalCoordinate) (ofIntF 0) then false
  else if fgt (tmpXlocalCoordinate xLocalCoordinate) (ofIntF xModuleSize) then false
  else if fgt (tmpYlocalCoordinate yLocalCoordinate) (ofIntF (yModuleSize is3x2)) then false
  else true

end CTPPSPixelTopology

/-! ## Sortedness under a comparator -/

/-- A sequence is sorted under the comparator `comp` (the post-condition of `std::sort`,
as `std::is_sorted` checks it): no element compares less than the element before it. -/
def isSortedBy (comp : DetGeomDesc → DetGeomDesc → Bool) : List DetGeomDesc → Bool
  | [] => true
  | [_] => true
  | a :: b :: rest => !comp b a && isSortedBy comp (b :: rest)

/-! ## Concrete nodes used as test inputs -/

/-- A zero `double`. -/
def dzero : Double := ⟨0⟩

/-- A structural node (no children, box solid, zero placement) with the given name,
copy number and identifier. -/
def mkNode (name : StdString) (copy : Int) (id : Nat) : DetGeomDesc :=
  { m_name := name
    m_copy := copy
    m_isDD4hep := false
    m_trans := ⟨dzero, dzero, dzero⟩
    m_rot := ⟨[]⟩
    m_params := []
    m_isABox := true
    m_diamondBoxParams := ⟨dzero, dzero, dzero⟩
    m_sensorType := []
    m_geographicalID := ⟨id⟩
    m_container := []
    m_z := ⟨0⟩ }

/-- The sibling "Plane" with identifier 0 and copy number 1. -/
def plane1 : DetGeomDesc := mkNode (ascii "Plane") 1 0

/-- The sibling "Plane" with identifier 0 and copy number 2. -/
def plane2 : DetGeomDesc := mkNode (ascii "Plane") 2 0

/-- A diamond-shaped sensor node: not a box, identifier 7, with non-zero stored
half-widths. -/
def diamondNode : DetGeomDesc :=
  { mkNode (ascii "Diamond") 3 7 with
    m_isABox := false
    m_diamondBoxParams := ⟨⟨11⟩, ⟨12⟩, ⟨13⟩⟩ }

/-- A sensor node with a non-default identifier. -/
def sensorB : DetGeomDesc := mkNode (ascii "Sensor_B") 1 5

/-! ## Properties of `operator<` on `std::string` -/

theorem strLt_irrefl (a : StdString) : strLt a a = false := by
  induction a with
  | nil => rfl
  | cons x xs ih => simp [strLt, ih]

theorem strLt_asymm : ∀ (a b : StdString), strLt a b = true → strLt b a = false
  | [], [], _ => rfl
  | [], _ :: _, _ => rfl
  | _ :: _, [], h => by simp [strLt] at h
  | x :: xs, y :: ys, h => by
    rcases lt_trichotomy x y with hxy | hxy | hxy
    · simp [strLt, hxy, not_lt_of_lt hxy]
    · subst hxy
      simp [strLt] at h ⊢
      exact strLt_asymm xs ys h
    · simp [strLt, hxy, not_lt_of_lt hxy] at h

theorem strLt_connected : ∀ (a b : StdString),
    strLt a b = false → strLt b a = false → a = b
  | [], [], _, _ => rfl
  | [], _ :: _, h, _ => by simp [strLt] at h
  | _ :: _, [], _, h => by simp [strLt] at h
  | x :: xs, y :: ys, h₁, h₂ => by
    rcases lt_trichotomy x y with hxy | hxy | hxy
    · simp [strLt, hxy] at h₁
    · subst hxy
      simp [strLt] at h₁ h₂
      rw [strLt_connected xs ys h₁ h₂]
    · simp [strLt, hxy] at h₂

theorem strLt_trans : ∀ (a b c : StdString),
    strLt a b = true → strLt b c = true → strLt a c = true
  | [], _, [], _, h => by cases ‹StdString› <;> simp [strLt] at h
  | [], _, _ :: _, _, _ => rfl
  | _ :: _, [], _, h, _ => by simp [strLt] at h
  | _ :: _, _ :: _, [], _, h => by simp [strLt] at h
  | x :: xs, y :: ys, z :: zs, h₁, h₂ => by
    have hxy : x ≤ y := by
      by_contra hc
      simp [strLt, not_le.mp hc, not_lt_of_lt (not_le.mp hc)] at h₁
    have hyz : y ≤ z := by
      by_contra hc
      simp [strLt, not_le.mp hc, not_lt_of_lt (not_le.mp hc)] at h₂
    rcases lt_or_eq_of_le hxy with hlt | heq
    · simp [strLt, lt_of_lt_of_le hlt hyz]
    · subst heq
      rcases lt_or_eq_of_le hyz with hlt | heq
      · simp [strLt, hlt]
      · subst heq
        simp [strLt] at h₁ h₂ ⊢
        exact strLt_trans xs ys zs h₁ h₂

theorem strLt_ne {a b : StdString} (h : strLt a b = true) : a ≠ b := by
  rintro rfl
  rw [strLt_irrefl] at h
  exact Bool.false_ne_true h

/-! ## Properties of `DetGeomDescCompare` -/

/-- The comparator, unfolded into a proposition on the three fields it reads. -/
theorem DetGeomDescCompare_iff (a b : DetGeomDesc) :
    DetGeomDescCompare a b = true ↔
      a.geographicalID.rawId < b.geographicalID.rawId ∨
      (a.geographicalID.rawId = b.geographicalID.rawId ∧
        (strLt a.name b.name = true ∨ (a.name = b.name ∧ a.copyno < b.copyno))) := by
  unfold DetGeomDescCompare DetId.ne DetId.lt
  by_cases hid : a.geographicalID.rawId = b.geographicalID.rawId
  · by_cases hn : a.name = b.name
    · simp [hid, hn, strLt_irrefl]
    · have : strLt a.name b.name = true → a.name ≠ b.name := strLt_ne
      simp [hid, hn]
  · simp [hid]

theorem DetId.ext_rawId {a b : DetId} (h : a.rawId = b.rawId) : a = b := by
  cases a; cases b; simp_all

theorem DetGeomDescCompare_irrefl (a : DetGeomDesc) : DetGeomDescCompare a a = false := by
  rw [← Bool.not_eq_true, DetGeomDescCompare_iff]
  simp [strLt_irrefl]

theorem DetGeomDescCompare_trans (a b c : DetGeomDesc)
    (hab : DetGeomDescCompare a b = true) (hbc : DetGeomDescCompare b c = true) :
    DetGeomDescCompare a c = true := by
  rw [DetGeomDescCompare_iff] at hab hbc ⊢
  rcases hab with hab | ⟨hab, hab2⟩
  · rcases hbc with hbc | ⟨hbc, -⟩
    · exact Or.inl (lt_trans hab hbc)
    · exact Or.inl (hbc ▸ hab)
  · rcases hbc with hbc | ⟨hbc, hbc2⟩
    · exact Or.inl (hab ▸ hbc)
    · refine Or.inr ⟨hab.trans hbc, ?_⟩
      rcases hab2 with h₁ | ⟨h₁, h₁c⟩
      · rcases hbc2 with h₂ | ⟨h₂, -⟩
        · exact Or.inl (strLt_trans _ _ _ h₁ h₂)
        · exact Or.inl (h₂ ▸ h₁)
      · rcases hbc2 with h₂ | ⟨h₂, h₂c⟩
        · exact Or.inl (h₁ ▸ h₂)
        · exact Or.inr ⟨h₁.trans h₂, lt_trans h₁c h₂c⟩

theorem DetGeomDescCompare_asymm (a b : DetGeomDesc)
    (hab : DetGeomDescCompare a b = true) : DetGeomDescCompare b a = false := by
  rw [← Bool.not_eq_true]
  intro hba
  have := DetGeomDescCompare_trans a b a hab hba
  rw [DetGeomDescCompare_irrefl] at this
  exact Bool.false_ne_true this

theorem DetGeomDescCompare_connected (a b : DetGeomDesc)
    (hab : DetGeomDescCompare a b = false) (hba : DetGeomDescCompare b a = false) :
    a.geographicalID = b.geographicalID ∧ a.name = b.name ∧ a.copyno = b.copyno := by
  rw [← Bool.not_eq_true, DetGeomDescCompare_iff] at hab hba
  push_neg at hab hba
  have hid : a.geographicalID.rawId = b.geographicalID.rawId :=
    le_antisymm hba.1 hab.1
  have h₁ := hab.2 hid
  have h₂ := hba.2 hid.symm
  have hn : a.name = b.name :=
    strLt_connected _ _ (Bool.not_eq_true _ ▸ h₁.1) (Bool.not_eq_true _ ▸ h₂.1)
  exact ⟨DetId.ext_rawId hid, hn, le_antisymm (h₂.2 hn.symm) (h₁.2 hn)⟩

theorem DetGeomDescCompare_congr (a a' b b' : DetGeomDesc)
    (ha : a.triple = a'.triple) (hb : b.triple = b'.triple) :
    DetGeomDescCompare a b = DetGeomDescCompare a' b' := by
  simp only [DetGeomDesc.triple, Prod.mk.injEq] at ha hb
  unfold DetGeomDescCompare
  rw [ha.1, ha.2.1, ha.2.2, hb.1, hb.2.1, hb.2.2]

theorem DetGeomDescCompare_of_triple_ne (a b : DetGeomDesc) (hne : a.triple ≠ b.triple)
    (hba : DetGeomDescCompare b a = false) : DetGeomDescCompare a b = true := by
  by_contra hab
  rw [Bool.not_eq_true] at hab
  obtain ⟨h₁, h₂, h₃⟩ := DetGeomDescCompare_connected a b hab hba
  exact hne (by simp [DetGeomDesc.triple, h₁, h₂, h₃])

/-- "Not greater than" is transitive: the comparator is a strict weak order. -/
theorem DetGeomDescCompare_not_gt_trans (a b c : DetGeomDesc)
    (hba : DetGeomDescCompare b a = false) (hcb : DetGeomDescCompare c b = false) :
    DetGeomDescCompare c a = false := by
  rw [← Bool.not_eq_true]
  intro hca
  cases hab : DetGeomDescCompare a b with
  | true =>
    have := DetGeomDescCompare_trans c a b hca hab
    rw [hcb] at this
    exact Bool.false_ne_true this
  | false =>
    obtain ⟨h₁, h₂, h₃⟩ := DetGeomDescCompare_connected a b hab hba
    have := DetGeomDescCompare_congr c c a b rfl (by simp [DetGeomDesc.triple, h₁, h₂, h₃])
    rw [hca, hcb] at this
    exact Bool.false_ne_true this.symm

theorem isSortedBy_iff_chain (comp : DetGeomDesc → DetGeomDesc → Bool) :
    ∀ l : List DetGeomDesc,
      isSortedBy comp l = true ↔ List.Chain' (fun a b => comp b a = false) l
  | [] => by simp [isSortedBy]
  | [_] => by simp [isSortedBy]
  | a :: b :: rest => by
    simp [isSortedBy, List.chain'_cons, isSortedBy_iff_chain comp (b :: rest)]

theorem isSortedBy_pairwise {l : List DetGeomDesc}
    (h : isSortedBy DetGeomDescCompare l = true) :
    l.Pairwise (fun a b => DetGeomDescCompare b a = false) := by
  rw [isSortedBy_iff_chain] at h
  haveI : IsTrans DetGeomDesc (fun a b => DetGeomDescCompare b a = false) :=
    ⟨fun a b c hab hbc => DetGeomDescCompare_not_gt_trans a b c hab hbc⟩
  exact List.chain'_iff_pairwise.mp h

theorem sorted_unique (l₁ l₂ : List DetGeomDesc) (hp : l₁.Perm l₂)
    (hd : l₁.Pairwise (fun a b => a.triple ≠ b.triple))
    (h₁ : isSortedBy DetGeomDescCompare l₁ = true)
    (h₂ : isSortedBy DetGeomDescCompare l₂ = true) : l₁ = l₂ := by
  have hd₂ : l₂.Pairwise (fun a b => a.triple ≠ b.triple) :=
    (hp.pairwise_iff (fun h => Ne.symm h)).mp hd
  have strict : ∀ l : List DetGeomDesc, l.Pairwise (fun a b => a.triple ≠ b.triple) →
      isSortedBy DetGeomDescCompare l = true →
      l.Pairwise (fun a b => DetGeomDescCompare a b = true) := by
    intro l hl hs
    exact (hl.and (isSortedBy_pairwise hs)).imp
      (fun {a b} h => DetGeomDescCompare_of_triple_ne a b h.1 h.2)
  haveI : IsAntisymm DetGeomDesc (fun a b => DetGeomDescCompare a b = true) :=
    ⟨fun a b hab hba => by
      rw [DetGeomDescCompare_asymm a b hab] at hba
      exact absurd hba Bool.false_ne_true⟩
  exact List.eq_of_perm_of_sorted hp (strict l₁ hd h₁) (strict l₂ hd₂ h₂)

/-! ## Properties of the rounding functions -/

theorem bitLen_zero (fuel : Nat) : bitLen fuel 0 = 0 := by
  cases fuel <;> simp [bitLen]

theorem bitLen_spec : ∀ (fuel n : Nat), n ≤ fuel →
    n < 2 ^ bitLen fuel n ∧ (n ≠ 0 → 2 ^ bitLen fuel n ≤ 2 * n)
  | 0, n, h => by
    have h0 : n = 0 := by omega
    subst h0
    simp [bitLen]
  | fuel + 1, n, h => by
    by_cases hn : n = 0
    · subst hn
      simp [bitLen]
    · have ih := bitLen_spec fuel (n / 2) (by omega)
      have hb : bitLen (fuel + 1) n = bitLen fuel (n / 2) + 1 := by simp [bitLen, hn]
      rw [hb, pow_succ]
      refine ⟨by omega, fun _ => ?_⟩
      by_cases h2 : n / 2 = 0
      · rw [h2, bitLen_zero]
        omega
      · have := ih.2 h2
        omega

theorem lt_two_pow_size (n : Nat) : n < 2 ^ bitSize n := (bitLen_spec n n le_rfl).1

theorem two_pow_size_le (n : Nat) (hn : n ≠ 0) : 2 ^ bitSize n ≤ 2 * n :=
  (bitLen_spec n n le_rfl).2 hn

theorem size_zero : bitSize 0 = 0 := rfl

theorem size_le_of_lt {n k : Nat} (h : n < 2 ^ k) : bitSize n ≤ k := by
  by_contra hc
  have hn : n ≠ 0 := by
    rintro rfl
    exact hc (by simp [size_zero])
  have h1 := two_pow_size_le n hn
  have h2 : 2 ^ (k + 1) ≤ 2 ^ bitSize n := Nat.pow_le_pow_right (by norm_num) (by omega)
  rw [pow_succ] at h2
  omega

theorem lt_size_of_le {n k : Nat} (h : 2 ^ k ≤ n) : k < bitSize n := by
  by_contra hc
  have h1 := lt_two_pow_size n
  have h2 : 2 ^ bitSize n ≤ 2 ^ k := Nat.pow_le_pow_right (by norm_num) (by omega)
  omega

theorem size_mono {m n : Nat} (h : m ≤ n) : bitSize m ≤ bitSize n :=
  size_le_of_lt (lt_of_le_of_lt h (lt_two_pow_size n))

theorem roundQuot_mono {a a' d : Nat} (hd : 0 < d) (h : a ≤ a') :
    roundQuot a d ≤ roundQuot a' d := by
  have hq : a / d ≤ a' / d := Nat.div_le_div_right h
  have e1 := Nat.div_add_mod a d
  have e2 := Nat.div_add_mod a' d
  have m1 := Nat.mod_lt a hd
  have m2 := Nat.mod_lt a' hd
  unfold roundQuot
  rcases Nat.lt_or_ge (a / d) (a' / d) with hlt | hge
  · split_ifs <;> omega
  · have heq : a / d = a' / d := le_antisymm hq hge
    rw [heq] at e1 ⊢
    have hr : a % d ≤ a' % d := by omega
    split_ifs <;> omega

theorem roundQuot_mul (d k : Nat) (hd : 0 < d) : roundQuot (d * k) d = k := by
  unfold roundQuot
  simp [Nat.mul_mod_right, Nat.mul_div_cancel_left k hd, hd]

/-- The quantum exponent chosen for a magnitude. -/
theorem roundMag_one (p qmin N : Nat) :
    roundMag p qmin N 1 =
      roundQuot N (2 ^ max (bitSize N - p) qmin) * 2 ^ max (bitSize N - p) qmin := by
  simp [roundMag]

theorem roundMag_le_of_dvd {p qmin N K : Nat}
    (hK : 2 ^ max (bitSize N - p) qmin ∣ K) (h : N ≤ K) : roundMag p qmin N 1 ≤ K := by
  rw [roundMag_one]
  obtain ⟨k, rfl⟩ := hK
  have hd : 0 < 2 ^ max (bitSize N - p) qmin := by positivity
  have := roundQuot_mono hd h
  rw [roundQuot_mul _ _ hd] at this
  calc _ ≤ k * 2 ^ max (bitSize N - p) qmin := Nat.mul_le_mul_right _ this
    _ = _ := Nat.mul_comm _ _

theorem le_roundMag_of_dvd {p qmin N K : Nat}
    (hK : 2 ^ max (bitSize N - p) qmin ∣ K) (h : K ≤ N) : K ≤ roundMag p qmin N 1 := by
  rw [roundMag_one]
  obtain ⟨k, rfl⟩ := hK
  have hd : 0 < 2 ^ max (bitSize N - p) qmin := by positivity
  have := roundQuot_mono hd h
  rw [roundQuot_mul _ _ hd] at this
  calc _ = k * 2 ^ max (bitSize N - p) qmin := Nat.mul_comm _ _
    _ ≤ _ := Nat.mul_le_mul_right _ this

theorem roundMag_mono {p qmin N N' : Nat} (hp : 1 ≤ p) (h : N ≤ N') :
    roundMag p qmin N 1 ≤ roundMag p qmin N' 1 := by
  have hs := size_mono h
  rcases Nat.lt_or_ge (max (bitSize N - p) qmin) (max (bitSize N' - p) qmin) with hlt | hge
  · -- different grids: separate the two results by a power of two
    have hq' : max (bitSize N' - p) qmin = bitSize N' - p := by omega
    have hss : bitSize N < bitSize N' := by omega
    have hN' : N' ≠ 0 := by
      rintro rfl
      simp [size_zero] at hss
    have hlow : 2 ^ (bitSize N' - 1) ≤ N' := by
      have h1 := two_pow_size_le N' hN'
      have h2 : 2 ^ bitSize N' = 2 ^ (bitSize N' - 1) * 2 := by
        rw [← pow_succ]
        congr 1
        omega
      omega
    have hup : N ≤ 2 ^ (bitSize N' - 1) := by
      have h1 := lt_two_pow_size N
      have h2 : 2 ^ bitSize N ≤ 2 ^ (bitSize N' - 1) :=
        Nat.pow_le_pow_right (by norm_num) (by omega)
      omega
    have d1 : 2 ^ max (bitSize N - p) qmin ∣ 2 ^ (bitSize N' - 1) :=
      pow_dvd_pow 2 (by omega)
    have d2 : 2 ^ max (bitSize N' - p) qmin ∣ 2 ^ (bitSize N' - 1) :=
      pow_dvd_pow 2 (by omega)
    exact le_trans (roundMag_le_of_dvd d1 hup) (le_roundMag_of_dvd d2 hlow)
  · have heq : max (bitSize N - p) qmin = max (bitSize N' - p) qmin := by omega
    rw [roundMag_one, roundMag_one, heq]
    exact Nat.mul_le_mul_right _ (roundQuot_mono (by positivity) h)

theorem roundMag_zero (p qmin : Nat) : roundMag p qmin 0 1 = 0 := by
  simp [roundMag_one, roundQuot]

theorem roundMag_lt_of_lt_pow {p qmin N t : Nat} (hq : qmin ≤ t) (h : N < 2 ^ t) :
    roundMag p qmin N 1 ≤ 2 ^ t := by
  have hs := size_le_of_lt h
  exact roundMag_le_of_dvd (pow_dvd_pow 2 (by omega)) (le_of_lt h)

/-- `x < 0` for a rounded value: only a negative, non-zero result is below zero. -/
theorem flt_roundFP_zero (p qmin ovf : Nat) (neg : Bool) (M : Nat) :
    flt (roundFP p qmin ovf neg M 1) (FP.fin 0) =
      (neg && decide (0 < roundMag p qmin M 1)) := by
  unfold roundFP
  have hpos : 0 < 2 ^ ovf := by positivity
  by_cases h : 2 ^ ovf ≤ roundMag p qmin M 1
  · have : 0 < roundMag p qmin M 1 := lt_of_lt_of_le hpos h
    rw [if_pos h]
    simp [flt, this]
  · rw [if_neg h]
    cases neg <;> simp [flt]

/-- `x > T` for a rounded value and a non-negative `T` below the overflow threshold. -/
theorem fgt_roundFP (p qmin ovf : Nat) (neg : Bool) (M T : Nat) (hT : T < 2 ^ ovf) :
    fgt (roundFP p qmin ovf neg M 1) (FP.fin (T : Int)) =
      (!neg && decide (T < roundMag p qmin M 1)) := by
  unfold roundFP fgt
  by_cases h : 2 ^ ovf ≤ roundMag p qmin M 1
  · have : T < roundMag p qmin M 1 := lt_of_lt_of_le hT h
    rw [if_pos h]
    simp [flt, this]
  · rw [if_neg h]
    cases neg
    · simp [flt]
    · have : ¬ ((T : Int) < -(roundMag p qmin M 1 : Int)) := by omega
      simp [flt, this]

theorem toDouble_of_lt {z : Int} (hb : z.natAbs < 2 ^ 2097) :
    toDouble z = FP.fin (if z < 0 then -(roundMag 53 0 z.natAbs 1 : Int)
      else (roundMag 53 0 z.natAbs 1 : Int)) := by
  have h1 : roundMag 53 0 z.natAbs 1 ≤ 2 ^ 2097 := roundMag_lt_of_lt_pow (Nat.zero_le _) hb
  have h2 : ¬ (2 ^ 2098 ≤ roundMag 53 0 z.natAbs 1) := by
    have : (2 : Nat) ^ 2097 < 2 ^ 2098 := Nat.pow_lt_pow_right (by decide) (by decide)
    omega
  unfold toDouble roundFP
  rw [if_neg h2]
  by_cases hz : z < 0 <;> simp [hz]

theorem round2_mono {N N' : Nat} (h : N ≤ N') : round2 N ≤ round2 N' :=
  roundMag_mono (by norm_num) (roundMag_mono (by norm_num) h)

theorem narrow_toDouble_nonneg {z : Int} (hz : 0 ≤ z) (hb : z.natAbs < 2 ^ 2097) :
    narrow (toDouble z) = roundFP 24 925 1202 false (roundMag 53 0 z.natAbs 1) 1 := by
  rw [toDouble_of_lt hb, if_neg (not_lt.mpr hz)]
  have : ¬ ((roundMag 53 0 z.natAbs 1 : Int) < 0) := by omega
  simp [narrow, toFloat32, this]

theorem narrow_toDouble_neg {z : Int} (hz : z < 0) (hb : z.natAbs < 2 ^ 2097) :
    narrow (toDouble z) =
      roundFP 24 925 1202 (decide (0 < roundMag 53 0 z.natAbs 1))
        (roundMag 53 0 z.natAbs 1) 1 := by
  rw [toDouble_of_lt hb, if_pos hz]
  simp [narrow, toFloat32]

/-- Both tests on one axis pass exactly when the sum lies between the two rounding
thresholds `-W` and `Zhi`. -/
theorem axis_iff (z : Int) (T Zhi W : Nat) (hb : z.natAbs < 2 ^ 2097) (hT : T < 2 ^ 1202)
    (h₁ : round2 Zhi ≤ T) (h₂ : T < round2 (Zhi + 1))
    (h₃ : round2 W = 0) (h₄ : 0 < round2 (W + 1)) :
    (flt (narrow (toDouble z)) (FP.fin 0) = false ∧
      fgt (narrow (toDouble z)) (FP.fin (T : Int)) = false) ↔
      (-(W : Int) ≤ z ∧ z ≤ (Zhi : Int)) := by
  rcases lt_or_le z 0 with hz | hz
  · rw [narrow_toDouble_neg hz hb, flt_roundFP_zero, fgt_roundFP _ _ _ _ _ _ hT]
    have hm : round2 z.natAbs = roundMag 24 925 (roundMag 53 0 z.natAbs 1) 1 := rfl
    rw [← hm]
    constructor
    · rintro ⟨h, -⟩
      have h0 : round2 z.natAbs = 0 := by
        by_contra hne
        have hpos : 0 < round2 z.natAbs := Nat.pos_of_ne_zero hne
        have hD : 0 < roundMag 53 0 z.natAbs 1 := by
          by_contra hD0
          have : roundMag 53 0 z.natAbs 1 = 0 := by omega
          rw [hm, this, roundMag_zero] at hpos
          exact absurd hpos (lt_irrefl _)
        simp [hD, hpos] at h
      have : z.natAbs ≤ W := by
        by_contra hc
        have := round2_mono (show W + 1 ≤ z.natAbs by omega)
        omega
      omega
    · rintro ⟨h, -⟩
      have hle : z.natAbs ≤ W := by omega
      have h0 : round2 z.natAbs = 0 := by
        have := round2_mono hle
        omega
      have hD : ¬ (T < roundMag 24 925 (roundMag 53 0 z.natAbs 1) 1) := by
        rw [← hm, h0]
        omega
      simp [h0]
  · rw [narrow_toDouble_nonneg hz hb, flt_roundFP_zero, fgt_roundFP _ _ _ _ _ _ hT]
    have hm : round2 z.natAbs = roundMag 24 925 (roundMag 53 0 z.natAbs 1) 1 := rfl
    rw [← hm]
    simp only [Bool.false_and, Bool.not_false, Bool.true_and, true_and, decide_eq_false_iff_not,
      not_lt]
    constructor
    · intro h
      refine ⟨by omega, ?_⟩
      by_contra hc
      have := round2_mono (show Zhi + 1 ≤ z.natAbs by omega)
      omega
    · rintro ⟨-, h⟩
      have := round2_mono (show z.natAbs ≤ Zhi by omega)
      omega

/-! ## Properties of `float` values -/

theorem decode_fin {x : CFloat} {v : Int} (h : decode x = FP.fin v) :
    ∃ m k : Nat, v.natAbs = m * 2 ^ k ∧ m < 2 ^ 24 ∧ k ≤ 1178 := by
  unfold decode at h
  have hm : x.bits % 2 ^ 23 < 2 ^ 23 := Nat.mod_lt _ (by positivity)
  have he : x.bits / 2 ^ 23 % 256 < 256 := Nat.mod_lt _ (by norm_num)
  split_ifs at h with h₁ h₂ h₃ h₄ h₅
  · have hv := FP.fin.inj h
    subst hv
    exact ⟨x.bits % 2 ^ 23, 925, by rw [Int.natAbs_neg, Int.natAbs_ofNat], by omega,
      by decide⟩
  · have hv := FP.fin.inj h
    subst hv
    exact ⟨x.bits % 2 ^ 23, 925, Int.natAbs_ofNat _, by omega, by decide⟩
  · have hv := FP.fin.inj h
    subst hv
    exact ⟨2 ^ 23 + x.bits % 2 ^ 23, x.bits / 2 ^ 23 % 256 + 924,
      by rw [Int.natAbs_neg, Int.natAbs_ofNat], by omega, by omega⟩
  · have hv := FP.fin.inj h
    subst hv
    exact ⟨2 ^ 23 + x.bits % 2 ^ 23, x.bits / 2 ^ 23 % 256 + 924, Int.natAbs_ofNat _,
      by omega, by omega⟩

theorem float_abs_lt {x : CFloat} {v : Int} (h : decode x = FP.fin v) :
    v.natAbs < 2 ^ 1202 := by
  obtain ⟨m, k, hv, hm, hk⟩ := decode_fin h
  rw [hv]
  calc m * 2 ^ k < 2 ^ 24 * 2 ^ k := Nat.mul_lt_mul_of_pos_right hm (by positivity)
    _ ≤ 2 ^ 24 * 2 ^ 1178 := Nat.mul_le_mul_left _ (Nat.pow_le_pow_right (by decide) hk)
    _ = 2 ^ 1202 := by rw [← pow_add]

/-- A `float` of magnitude at least `2 ^ (s + 23)` units is a multiple of `2 ^ s` units. -/
theorem float_grid {x : CFloat} {v : Int} (h : decode x = FP.fin v) (s : Nat)
    (hs : 2 ^ (s + 23) ≤ v.natAbs) : 2 ^ s ∣ v.natAbs := by
  obtain ⟨m, k, hv, hm, -⟩ := decode_fin h
  rw [hv] at hs ⊢
  have hk : s ≤ k := by
    by_contra hc
    have h1 : m * 2 ^ k < 2 ^ 24 * 2 ^ k := Nat.mul_lt_mul_of_pos_right hm (by positivity)
    have h2 : 2 ^ 24 * 2 ^ k ≤ 2 ^ (s + 23) := by
      rw [← pow_add]
      exact Nat.pow_le_pow_right (by decide) (by omega)
    omega
  exact Dvd.dvd.mul_left (pow_dvd_pow 2 hk) m

theorem realValue_le (v a b : Int) (hb : 0 < b) :
    realValue v ≤ (a : ℚ) / (b : ℚ) ↔ b * v ≤ a * (2 ^ 1074 : Int) := by
  unfold realValue unitsPerOne
  have hb' : (0 : ℚ) < (b : ℚ) := by exact_mod_cast hb
  rw [div_le_div_iff₀ (by positivity) hb']
  constructor
  · intro h
    have : ((v * b : Int) : ℚ) ≤ ((a * 2 ^ 1074 : Int) : ℚ) := by
      push_cast
      exact_mod_cast h
    have := Int.cast_le.mp this
    linarith
  · intro h
    have : ((v * b : Int) : ℚ) ≤ ((a * 2 ^ 1074 : Int) : ℚ) := by
      apply Int.cast_le.mpr
      linarith
    push_cast at this
    exact_mod_cast this

theorem le_realValue (v a b : Int) (hb : 0 < b) :
    (a : ℚ) / (b : ℚ) ≤ realValue v ↔ a * (2 ^ 1074 : Int) ≤ b * v := by
  unfold realValue unitsPerOne
  have hb' : (0 : ℚ) < (b : ℚ) := by exact_mod_cast hb
  rw [div_le_div_iff₀ hb' (by positivity)]
  constructor
  · intro h
    have : ((a * 2 ^ 1074 : Int) : ℚ) ≤ ((v * b : Int) : ℚ) := by
      push_cast
      exact_mod_cast h
    have := Int.cast_le.mp this
    linarith
  · intro h
    have : ((a * 2 ^ 1074 : Int) : ℚ) ≤ ((v * b : Int) : ℚ) := by
      apply Int.cast_le.mpr
      linarith
    push_cast at this
    exact_mod_cast this

/-! ## Properties of `isPixelHit` -/

namespace CTPPSPixelTopology

set_option maxRecDepth 100000 in
theorem shiftX_eq : shiftX = FP.fin (4559894622712627 * 2 ^ 1025) := by decide!

set_option maxRecDepth 100000 in
theorem shiftY_eq : shiftY = FP.fin (12 * 2 ^ 1074) := by decide!

set_option maxRecDepth 100000 in
theorem ofIntF_zero : ofIntF 0 = FP.fin 0 := by decide!

set_option maxRecDepth 100000 in
theorem xModuleSize_eq : xModuleSize = 16 := by decide!

set_option maxRecDepth 100000 in
theorem yModuleSize_true : yModuleSize true = 24 := by decide!

set_option maxRecDepth 100000 in
theorem yModuleSize_false : yModuleSize false = 15 := by decide!

set_option maxRecDepth 100000 in
theorem ofIntF_16 : ofIntF 16 = FP.fin ((16 * 2 ^ 1074 : Nat) : Int) := by decide!

set_option maxRecDepth 100000 in
theorem ofIntF_24 : ofIntF 24 = FP.fin ((24 * 2 ^ 1074 : Nat) : Int) := by decide!

set_option maxRecDepth 100000 in
theorem ofIntF_15 : ofIntF 15 = FP.fin ((15 * 2 ^ 1074 : Nat) : Int) := by decide!

set_option maxRecDepth 100000 in
theorem round2_16 :
    round2 (16 * 2 ^ 1074 + 2 ^ 1054 + 2 ^ 1025) ≤ 16 * 2 ^ 1074 ∧
    16 * 2 ^ 1074 < round2 (16 * 2 ^ 1074 + 2 ^ 1054 + 2 ^ 1025 + 1) := by decide!

set_option maxRecDepth 100000 in
theorem round2_24 :
    round2 (24 * 2 ^ 1074 + 2 ^ 1054 + 2 ^ 1025) ≤ 24 * 2 ^ 1074 ∧
    24 * 2 ^ 1074 < round2 (24 * 2 ^ 1074 + 2 ^ 1054 + 2 ^ 1025 + 1) := by decide!

set_option maxRecDepth 100000 in
theorem round2_15 :
    round2 (15 * 2 ^ 1074 + 2 ^ 1053 + 2 ^ 1024) ≤ 15 * 2 ^ 1074 ∧
    15 * 2 ^ 1074 < round2 (15 * 2 ^ 1074 + 2 ^ 1053 + 2 ^ 1024 + 1) := by decide!

set_option maxRecDepth 100000 in
theorem round2_tiny :
    round2 (2 ^ 924 + 2 ^ 871) = 0 ∧ 0 < round2 (2 ^ 924 + 2 ^ 871 + 1) := by decide!

set_option maxRecDepth 100000 in
theorem sizes_lt_overflow :
    16 * 2 ^ 1074 < 2 ^ 1202 ∧ 24 * 2 ^ 1074 < 2 ^ 1202 ∧ 15 * 2 ^ 1074 < 2 ^ 1202 := by
  decide!

theorem isPixelHit_iff_tests (x y : CFloat) (is3x2 : Bool) :
    isPixelHit x y is3x2 = true ↔
      (flt (tmpXlocalCoordinate x) (ofIntF 0) = false ∧
        fgt (tmpXlocalCoordinate x) (ofIntF xModuleSize) = false) ∧
      (flt (tmpYlocalCoordinate y) (ofIntF 0) = false ∧
        fgt (tmpYlocalCoordinate y) (ofIntF (yModuleSize is3x2)) = false) := by
  unfold isPixelHit
  split_ifs with h₁ h₂ h₃ h₄ <;> simp_all

/-- The x axis: both tests pass iff the coordinate is NaN or lies in
`[-8.1, 16567502 / 2 ^ 21]`. -/
theorem xAxis_iff (x : CFloat) :
    (flt (tmpXlocalCoordinate x) (ofIntF 0) = false ∧
      fgt (tmpXlocalCoordinate x) (ofIntF xModuleSize) = false) ↔
      passes (-8.1) (16567502 / 2 ^ 21) (decode x) := by
  rw [xModuleSize_eq, ofIntF_16, ofIntF_zero]
  unfold tmpXlocalCoordinate
  rw [shiftX_eq]
  cases hd : decode x with
  | nan => simp [dadd, narrow, flt, fgt, passes]
  | inf s => cases s <;> simp [dadd, narrow, flt, fgt, passes]
  | fin v =>
    have hlt := float_abs_lt hd
    have g₁ := float_grid hd 1054
    have g₂ := float_grid hd 1053
    have hb : (v + 4559894622712627 * 2 ^ 1025).natAbs < 2 ^ 2097 := by omega
    have key := axis_iff (v + 4559894622712627 * 2 ^ 1025) (16 * 2 ^ 1074)
      (16 * 2 ^ 1074 + 2 ^ 1054 + 2 ^ 1025) (2 ^ 924 + 2 ^ 871) hb sizes_lt_overflow.1
      round2_16.1 round2_16.2 round2_tiny.1 round2_tiny.2
    have e₁ : (-8.1 : ℚ) = ((-81 : Int) : ℚ) / ((10 : Int) : ℚ) := by norm_num
    have e₂ : (16567502 / 2 ^ 21 : ℚ) = ((16567502 : Int) : ℚ) / ((2 ^ 21 : Int) : ℚ) := by
      norm_num
    simp only [dadd, passes]
    rw [key, e₁, e₂, le_realValue _ _ _ (by norm_num), realValue_le _ _ _ (by norm_num)]
    constructor
    · rintro ⟨h₁, h₂⟩
      refine ⟨by omega, ?_⟩
      by_contra hc
      obtain ⟨k, hk⟩ := g₂ (by omega)
      omega
    · rintro ⟨h₁, h₂⟩
      refine ⟨?_, by omega⟩
      by_contra hc
      obtain ⟨k, hk⟩ := g₁ (by omega)
      omega

/-- The y axis: both tests pass iff the coordinate is NaN or lies in `[-12, 12 + 2 ^ -20]`
(3x2) or `[-12, 3 + 2 ^ -21]` (2x2). -/
theorem yAxis_iff (y : CFloat) (is3x2 : Bool) :
    (flt (tmpYlocalCoordinate y) (ofIntF 0) = false ∧
      fgt (tmpYlocalCoordinate y) (ofIntF (yModuleSize is3x2)) = false) ↔
      passes (-12) (if is3x2 then 12 + 1 / 2 ^ 20 else 3 + 1 / 2 ^ 21) (decode y) := by
  rw [ofIntF_zero]
  unfold tmpYlocalCoordinate
  rw [shiftY_eq]
  cases hd : decode y with
  | nan => simp [dadd, narrow, flt, fgt, passes]
  | inf s =>
    cases is3x2
    · rw [yModuleSize_false, ofIntF_15]
      cases s <;> simp [dadd, narrow, flt, fgt, passes]
    · rw [yModuleSize_true, ofIntF_24]
      cases s <;> simp [dadd, narrow, flt, fgt, passes]
  | fin v =>
    have hlt := float_abs_lt hd
    have g₁ := float_grid hd 1054
    have g₂ := float_grid hd 1052
    have hb : (v + 12 * 2 ^ 1074).natAbs < 2 ^ 2097 := by omega
    have e₁ : (-12 : ℚ) = ((-12 : Int) : ℚ) / ((1 : Int) : ℚ) := by norm_num
    cases is3x2
    · rw [yModuleSize_false, ofIntF_15]
      have key := axis_iff (v + 12 * 2 ^ 1074) (15 * 2 ^ 1074)
        (15 * 2 ^ 1074 + 2 ^ 1053 + 2 ^ 1024) (2 ^ 924 + 2 ^ 871) hb sizes_lt_overflow.2.2
        round2_15.1 round2_15.2 round2_tiny.1 round2_tiny.2
      have e₂ : (3 + 1 / 2 ^ 21 : ℚ) = ((6291457 : Int) : ℚ) / ((2 ^ 21 : Int) : ℚ) := by
        norm_num
      simp only [dadd, passes, Bool.false_eq_true, if_false]
      rw [key, e₁, e₂, le_realValue _ _ _ (by norm_num), realValue_le _ _ _ (by norm_num)]
      constructor
      · rintro ⟨h₁, h₂⟩
        constructor
        · by_contra hc
          obtain ⟨k, hk⟩ := g₁ (by omega)
          omega
        · by_contra hc
          obtain ⟨k, hk⟩ := g₂ (by omega)
          omega
      · rintro ⟨h₁, h₂⟩
        exact ⟨by omega, by omega⟩
    · rw [yModuleSize_true, ofIntF_24]
      have key := axis_iff (v + 12 * 2 ^ 1074) (24 * 2 ^ 1074)
        (24 * 2 ^ 1074 + 2 ^ 1054 + 2 ^ 1025) (2 ^ 924 + 2 ^ 871) hb sizes_lt_overflow.2.1
        round2_24.1 round2_24.2 round2_tiny.1 round2_tiny.2
      have e₂ : (12 + 1 / 2 ^ 20 : ℚ) = ((12582913 : Int) : ℚ) / ((2 ^ 20 : Int) : ℚ) := by
        norm_num
      simp only [dadd, passes, if_true]
      rw [key, e₁, e₂, le_realValue _ _ _ (by norm_num), realValue_le _ _ _ (by norm_num)]
      constructor
      · rintro ⟨h₁, h₂⟩
        constructor
        · by_contra hc
          obtain ⟨k, hk⟩ := g₁ (by omega)
          omega
        · by_contra hc
          obtain ⟨k, hk⟩ := g₁ (by omega)
          omega
      · rintro ⟨h₁, h₂⟩
        exact ⟨by omega, by omega⟩

end CTPPSPixelTopology

/-! ## The comparator is a strict total order on triples -/

/-- C1: `DetGeomDescCompare` is a strict order on nodes: it is irreflexive, asymmetric and
transitive, and it sees a node only through its triple (geographicalID, name, copyno). -/
theorem DetGeomDescCompare_strict_order :
    (∀ a : DetGeomDesc, DetGeomDescCompare a a = false) ∧
    (∀ a b : DetGeomDesc, DetGeomDescCompare a b = true → DetGeomDescCompare b a = false) ∧
    (∀ a b c : DetGeomDesc, DetGeomDescCompare a b = true → DetGeomDescCompare b c = true →
      DetGeomDescCompare a c = true) ∧
    (∀ a a' b b' : DetGeomDesc, a.triple = a'.triple → b.triple = b'.triple →
      DetGeomDescCompare a b = DetGeomDescCompare a' b') :=
  ⟨DetGeomDescCompare_irrefl, DetGeomDescCompare_asymm, DetGeomDescCompare_trans,
    DetGeomDescCompare_congr⟩

/-- Witness of C1 on the nodes `plane1 < plane2 < sensorB`. -/
theorem DetGeomDescCompare_strict_order_witness :
    (DetGeomDescCompare plane1 plane2 = true ∧ DetGeomDescCompare plane2 sensorB = true) ∧
    DetGeomDescCompare plane2 plane1 = false ∧
    DetGeomDescCompare plane1 sensorB = true :=
  ⟨⟨by decide, by decide⟩,
    DetGeomDescCompare_strict_order.2.1 plane1 plane2 (by decide),
    DetGeomDescCompare_strict_order.2.2.1 plane1 plane2 sensorB (by decide) (by decide)⟩

/-- C2: `DetGeomDescCompare` is total on triples: two nodes are unordered in both directions
exactly when they have the same geographicalID, name and copyno; two nodes with different
triples are ordered in exactly one direction; and a collection with pairwise distinct
triples has a single sorted arrangement. -/
theorem DetGeomDescCompare_total :
    (∀ a b : DetGeomDesc,
      (DetGeomDescCompare a b = false ∧ DetGeomDescCompare b a = false) ↔
        (a.geographicalID = b.geographicalID ∧ a.name = b.name ∧ a.copyno = b.copyno)) ∧
    (∀ a b : DetGeomDesc, a.triple ≠ b.triple →
      (DetGeomDescCompare a b = true ∧ DetGeomDescCompare b a = false) ∨
      (DetGeomDescCompare a b = false ∧ DetGeomDescCompare b a = true)) ∧
    (∀ l₁ l₂ : List DetGeomDesc, l₁.Perm l₂ →
      l₁.Pairwise (fun a b => a.triple ≠ b.triple) →
      isSortedBy DetGeomDescCompare l₁ = true → isSortedBy DetGeomDescCompare l₂ = true →
      l₁ = l₂) := by
  refine ⟨fun a b => ⟨fun h => DetGeomDescCompare_connected a b h.1 h.2, ?_⟩, ?_,
    sorted_unique⟩
  · rintro ⟨h₁, h₂, h₃⟩
    have ht : a.triple = b.triple := by simp [DetGeomDesc.triple, h₁, h₂, h₃]
    have hab := DetGeomDescCompare_congr a a a b rfl ht
    have hba := DetGeomDescCompare_congr a b a a ht rfl
    rw [DetGeomDescCompare_irrefl] at hab hba
    exact ⟨hab.symm, hba.symm⟩
  · intro a b hne
    cases hba : DetGeomDescCompare b a with
    | false => exact Or.inl ⟨DetGeomDescCompare_of_triple_ne a b hne hba, rfl⟩
    | true => exact Or.inr ⟨DetGeomDescCompare_asymm b a hba, rfl⟩

/-- Witness of C2: `plane2` and `plane1` differ in their copy number, are ordered in one
direction only, and `[plane1, plane2]` is the sorted arrangement of the two. -/
theorem DetGeomDescCompare_total_witness :
    (plane2.triple ≠ plane1.triple ∧
      ((DetGeomDescCompare plane2 plane1 = true ∧ DetGeomDescCompare plane1 plane2 = false) ∨
       (DetGeomDescCompare plane2 plane1 = false ∧
        DetGeomDescCompare plane1 plane2 = true))) ∧
    (isSortedBy DetGeomDescCompare [plane1, plane2, sensorB] = true ∧
      [plane1, plane2, sensorB] = [plane1, plane2, sensorB]) :=
  ⟨⟨by decide, DetGeomDescCompare_total.2.1 plane2 plane1 (by decide)⟩,
    by decide,
    DetGeomDescCompare_total.2.2 [plane1, plane2, sensorB] [plane1, plane2, sensorB]
      (List.Perm.refl _) (by decide) (by decide) (by decide)⟩

/-! ## The two branches of the comparator -/

/-- C3: for two nodes with distinct geographicalIDs, `DetGeomDescCompare a b` is the
comparison of the identifiers, whatever the names and copy numbers are. -/
theorem DetGeomDescCompare_distinct_id (a b : DetGeomDesc)
    (h : a.geographicalID ≠ b.geographicalID) :
    DetGeomDescCompare a b = decide (a.geographicalID.rawId < b.geographicalID.rawId) := by
  have hne : a.geographicalID.rawId ≠ b.geographicalID.rawId :=
    fun he => h (DetId.ext_rawId he)
  simp [DetGeomDescCompare, DetId.ne, DetId.lt, hne]

/-- Witness of C3: `sensorB` (identifier 5, name "Sensor_B") against `diamondNode`
(identifier 7, name "Diamond"): the identifiers decide, against the order of the names. -/
theorem DetGeomDescCompare_distinct_id_witness :
    sensorB.geographicalID ≠ diamondNode.geographicalID ∧
    DetGeomDescCompare sensorB diamondNode =
      decide (sensorB.geographicalID.rawId < diamondNode.geographicalID.rawId) :=
  ⟨by decide, DetGeomDescCompare_distinct_id sensorB diamondNode (by decide)⟩

/-- C4: for two nodes with equal geographicalID, `DetGeomDescCompare a b` is the
lexicographic comparison on (name, copyno): the comparison of the names when they differ,
of the copy numbers when the names are equal. Two nodes named "Plane" with identifier 0
and copy numbers 1 and 2 compare as (copy 1) < (copy 2) and not the other way round, so
(copy 1, copy 2) is sorted and (copy 2, copy 1) is not. -/
theorem DetGeomDescCompare_equal_id :
    (∀ a b : DetGeomDesc, a.geographicalID = b.geographicalID →
      (a.name ≠ b.name → DetGeomDescCompare a b = strLt a.name b.name) ∧
      (a.name = b.name → DetGeomDescCompare a b = decide (a.copyno < b.copyno))) ∧
    (∀ p₁ p₂ : DetGeomDesc, p₁.name = ascii "Plane" → p₂.name = ascii "Plane" →
      p₁.geographicalID = ⟨0⟩ → p₂.geographicalID = ⟨0⟩ → p₁.copyno = 1 → p₂.copyno = 2 →
      DetGeomDescCompare p₁ p₂ = true ∧ DetGeomDescCompare p₂ p₁ = false ∧
      isSortedBy DetGeomDescCompare [p₁, p₂] = true ∧
      isSortedBy DetGeomDescCompare [p₂, p₁] = false) := by
  constructor
  · intro a b hid
    constructor
    · intro hn
      simp [DetGeomDescCompare, DetId.ne, hid, hn]
    · intro hn
      simp [DetGeomDescCompare, DetId.ne, hid, hn]
  · intro p₁ p₂ hn₁ hn₂ hi₁ hi₂ hc₁ hc₂
    have h₁₂ : DetGeomDescCompare p₁ p₂ = true := by
      simp [DetGeomDescCompare, DetId.ne, hn₁, hn₂, hi₁, hi₂, hc₁, hc₂]
    have h₂₁ : DetGeomDescCompare p₂ p₁ = false := by
      simp [DetGeomDescCompare, DetId.ne, hn₁, hn₂, hi₁, hi₂, hc₁, hc₂]
    refine ⟨h₁₂, h₂₁, ?_, ?_⟩
    · simp [isSortedBy, h₂₁]
    · simp [isSortedBy, h₁₂]

/-- Witness of C4 on the nodes `plane1` and `plane2`. -/
theorem DetGeomDescCompare_equal_id_witness :
    (plane1.geographicalID = plane2.geographicalID ∧ plane1.name = plane2.name ∧
      DetGeomDescCompare plane1 plane2 = decide (plane1.copyno < plane2.copyno)) ∧
    (DetGeomDescCompare plane1 plane2 = true ∧ DetGeomDescCompare plane2 plane1 = false ∧
      isSortedBy DetGeomDescCompare [plane1, plane2] = true ∧
      isSortedBy DetGeomDescCompare [plane2, plane1] = false) :=
  ⟨⟨by decide, by decide,
      (DetGeomDescCompare_equal_id.1 plane1 plane2 (by decide)).2 (by decide)⟩,
    DetGeomDescCompare_equal_id.2 plane1 plane2 (by decide) (by decide) (by decide)
      (by decide) (by decide) (by decide)⟩

/-! ## `getDiamondDimensions` -/

/-- C5, as stated, fails: `plane1` is a box and the call on it emits no log entry, while
`diamondNode` is not a box and the call on it emits an entry; so it is not true that the
call logs an error on every box node and stays silent on every non-box node. -/
theorem getDiamondDimensions_box_is_silent :
    (plane1.isABox = true ∧ plane1.getDiamondDimensions.log = []) ∧
    (diamondNode.isABox = false ∧ diamondNode.getDiamondDimensions.log ≠ []) ∧
    ¬ (∀ d : DetGeomDesc,
        (d.isABox = true → ∃ e ∈ d.getDiamondDimensions.log, e.severity = Severity.error) ∧
        (d.isABox = false → d.getDiamondDimensions.log = [])) := by
  refine ⟨⟨by decide, by decide⟩, ⟨by decide, by decide⟩, fun h => ?_⟩
  have := (h diamondNode).2 (by decide)
  exact absurd this (by decide)

/-- C5, amended: `getDiamondDimensions` logs exactly when the node is not a box. For every
node with `isABox` false the call emits one entry, of severity error, under the category
"DetGeomDesc::getDiamondDimensions is not called on a box, for solid " and carrying the
name and the identifier of the node; for every node with `isABox` true it emits none. -/
theorem getDiamondDimensions_logs_iff_not_box (d : DetGeomDesc) :
    (d.isABox = false →
      ∃ e : LogEntry, d.getDiamondDimensions.log = [e] ∧ e.severity = Severity.error ∧
        e.category = "DetGeomDesc::getDiamondDimensions is not called on a box, for solid " ∧
        e.items = [LogItem.str d.name, LogItem.text ", Id = ",
          LogItem.detId d.geographicalID]) ∧
    (d.isABox = true → d.getDiamondDimensions.log = []) := by
  constructor
  · intro h
    refine ⟨LogError "DetGeomDesc::getDiamondDimensions is not called on a box, for solid "
      [LogItem.str d.name, LogItem.text ", Id = ", LogItem.detId d.geographicalID],
      ?_, rfl, rfl, rfl⟩
    simp [DetGeomDesc.getDiamondDimensions, h]
  · intro h
    simp [DetGeomDesc.getDiamondDimensions, h]

/-- Witness of the amended C5: the non-box `diamondNode` gets one error entry, the box
`plane1` gets none. -/
theorem getDiamondDimensions_logs_iff_not_box_witness :
    (diamondNode.isABox = false ∧
      ∃ e : LogEntry, diamondNode.getDiamondDimensions.log = [e] ∧
        e.severity = Severity.error ∧
        e.category = "DetGeomDesc::getDiamondDimensions is not called on a box, for solid " ∧
        e.items = [LogItem.str diamondNode.name, LogItem.text ", Id = ",
          LogItem.detId diamondNode.geographicalID]) ∧
    (plane1.isABox = true ∧ plane1.getDiamondDimensions.log = []) :=
  ⟨⟨by decide, (getDiamondDimensions_logs_iff_not_box diamondNode).1 (by decide)⟩,
    ⟨by decide, (getDiamondDimensions_logs_iff_not_box plane1).2 (by decide)⟩⟩

/-- C6: `getDiamondDimensions` is total and always returns the stored struct: for every
node, box or not, the value returned is the stored `m_diamondBoxParams` (its three
half-widths), the node after the call is the node before it, and the value returned does
not depend on the box flag. -/
theorem getDiamondDimensions_returns_stored (d : DetGeomDesc) :
    d.getDiamondDimensions.ret = d.m_diamondBoxParams ∧
    d.getDiamondDimensions.ret.xHalfWidth = d.m_diamondBoxParams.xHalfWidth ∧
    d.getDiamondDimensions.ret.yHalfWidth = d.m_diamondBoxParams.yHalfWidth ∧
    d.getDiamondDimensions.ret.zHalfWidth = d.m_diamondBoxParams.zHalfWidth ∧
    d.getDiamondDimensions.self = d ∧
    (∀ box : Bool,
      ({ d with m_isABox := box }).getDiamondDimensions.ret = d.getDiamondDimensions.ret ∧
      ({ d with m_isABox := box }).getDiamondDimensions.self = { d with m_isABox := box }) :=
  ⟨rfl, rfl, rfl, rfl, rfl, fun _ => ⟨rfl, rfl⟩⟩

/-! ## `CTPPSPixelTopology` -/

namespace CTPPSPixelTopology

set_option maxRecDepth 100000 in
theorem isPixelHit_at_8_0 : isPixelHit ⟨0x41000000⟩ ⟨0⟩ true = false := by decide!

set_option maxRecDepth 100000 in
theorem isPixelHit_at_neg8_neg0 :
    isPixelHit (fneg ⟨0x41000000⟩) (fneg ⟨0⟩) true = true := by decide!

set_option maxRecDepth 100000 in
theorem decode_8_0 :
    decode ⟨0x41000000⟩ = FP.fin (8 * 2 ^ 1074) ∧
    decode (fneg ⟨0x41000000⟩) = FP.fin (-8 * 2 ^ 1074) ∧
    decode ⟨0⟩ = FP.fin 0 ∧ decode (fneg ⟨0⟩) = FP.fin 0 := by decide!

set_option maxRecDepth 100000 in
theorem isPixelHit_at_7_9f :
    decode ⟨0x40FCCCCD⟩ = FP.fin (16567501 * 2 ^ 1053) ∧
    isPixelHit ⟨0x40FCCCCD⟩ ⟨0⟩ true = true := by decide!

set_option maxRecDepth 100000 in
theorem isPixelHit_at_nan :
    decode ⟨0x7FC00000⟩ = FP.nan ∧ isPixelHit ⟨0x7FC00000⟩ ⟨0x7FC00000⟩ true = true := by
  decide!

set_option maxRecDepth 100000 in
theorem isPixelHit_at_origin :
    isPixelHit ⟨0⟩ ⟨0⟩ false = true ∧ isPixelHit ⟨0⟩ ⟨0⟩ true = true := by decide!

set_option maxRecDepth 100000 in
theorem tmpX_at_8_gt : fgt (tmpXlocalCoordinate ⟨0x41000000⟩) (ofIntF xModuleSize) = true := by
  decide!

set_option maxRecDepth 100000 in
theorem shifts_eq : shiftX = dlit 81 10 ∧ shiftY = ofInt 12 := by decide!

theorem fgt_fin_mono (a : FP) (s t : Int) (hst : s ≤ t) (h : fgt a (FP.fin s) = false) :
    fgt a (FP.fin t) = false := by
  cases a with
  | nan => rfl
  | inf neg => simpa [fgt, flt] using h
  | fin n =>
    simp only [fgt, flt, decide_eq_false_iff_not, not_lt] at h ⊢
    omega

theorem value_7_9f_gt : ¬ realValue (16567501 * 2 ^ 1053) ≤ 7.9 := by
  have e : (7.9 : ℚ) = ((79 : Int) : ℚ) / ((10 : Int) : ℚ) := by norm_num
  rw [e, realValue_le _ _ _ (by norm_num)]
  omega

/-- C7 fails on the code: the point (8.0f, 0.0f), bit patterns `0x41000000` and `0`, is
rejected (its shifted x is 16.1f, above the truncated module size 16) while the mirrored
point (-8.0f, -0.0f) is accepted, so the acceptance region of `isPixelHit` with
`is3x2 = true` is not symmetric about the origin. -/
theorem isPixelHit_not_centred :
    isPixelHit ⟨0x41000000⟩ ⟨0⟩ true = false ∧
    isPixelHit (fneg ⟨0x41000000⟩) (fneg ⟨0⟩) true = true ∧
    (decode ⟨0x41000000⟩ = FP.fin (8 * 2 ^ 1074) ∧
      decode (fneg ⟨0x41000000⟩) = FP.fin (-8 * 2 ^ 1074) ∧
      decode ⟨0⟩ = FP.fin 0 ∧ decode (fneg ⟨0⟩) = FP.fin 0) ∧
    ¬ (∀ x y : CFloat, isPixelHit x y true = isPixelHit (fneg x) (fneg y) true) := by
  refine ⟨isPixelHit_at_8_0, isPixelHit_at_neg8_neg0, decode_8_0, fun h => ?_⟩
  have := h ⟨0x41000000⟩ ⟨0⟩
  rw [isPixelHit_at_8_0, isPixelHit_at_neg8_neg0] at this
  exact Bool.false_ne_true this

/-- C8, as stated, fails on the code: the `float` nearest to 7.9 (bit pattern `0x40FCCCCD`,
value 16567501 / 2 ^ 21) is greater than 7.9, yet `isPixelHit` accepts it with y = 0,
because its shifted x coordinate rounds to 16.0f; and a NaN point is accepted. So
acceptance is not equivalent to `-8.1 ≤ x ≤ 7.9 ∧ -12 ≤ y ≤ 12` on finite points. -/
theorem isPixelHit_accepts_above_bound :
    (decode ⟨0x40FCCCCD⟩ = FP.fin (16567501 * 2 ^ 1053) ∧
      ¬ realValue (16567501 * 2 ^ 1053) ≤ 7.9 ∧
      isPixelHit ⟨0x40FCCCCD⟩ ⟨0⟩ true = true) ∧
    (decode ⟨0x7FC00000⟩ = FP.nan ∧ isPixelHit ⟨0x7FC00000⟩ ⟨0x7FC00000⟩ true = true) ∧
    ¬ (∀ (x y : CFloat) (vx vy : Int), decode x = FP.fin vx → decode y = FP.fin vy →
        (isPixelHit x y true = true ↔
          -8.1 ≤ realValue vx ∧ realValue vx ≤ 7.9 ∧
          -12 ≤ realValue vy ∧ realValue vy ≤ 12)) := by
  refine ⟨⟨isPixelHit_at_7_9f.1, value_7_9f_gt, isPixelHit_at_7_9f.2⟩, isPixelHit_at_nan,
    fun h => ?_⟩
  have := (h ⟨0x40FCCCCD⟩ ⟨0⟩ _ _ isPixelHit_at_7_9f.1 decode_8_0.2.2.1).mp
    isPixelHit_at_7_9f.2
  exact value_7_9f_gt this.2.1

/-- C8, amended: exact characterisation of `isPixelHit` in the arithmetic the code uses
(`float` arguments, sums in `double` narrowed to `float`, round to nearest even, `int`
conversion by truncation). The shifts are the `double`s 8.1 and 12; `xModuleSize = 16`,
`yModuleSize = 24` when `is3x2` and 15 otherwise; and a point is accepted iff each
coordinate is NaN or finite within inclusive bounds: `-8.1 ≤ x ≤ 16567502 / 2 ^ 21`
(the second `float` above 7.9), and `-12 ≤ y ≤ 12 + 2 ^ -20` when `is3x2`,
`-12 ≤ y ≤ 3 + 2 ^ -21` otherwise. -/
theorem isPixelHit_float_exact :
    (shiftX = dlit 81 10 ∧ shiftY = ofInt 12) ∧
    (xModuleSize = 16 ∧ yModuleSize true = 24 ∧ yModuleSize false = 15) ∧
    (∀ x y : CFloat,
      (isPixelHit x y true = true ↔
        passes (-8.1) (16567502 / 2 ^ 21) (decode x) ∧
        passes (-12) (12 + 1 / 2 ^ 20) (decode y)) ∧
      (isPixelHit x y false = true ↔
        passes (-8.1) (16567502 / 2 ^ 21) (decode x) ∧
        passes (-12) (3 + 1 / 2 ^ 21) (decode y))) := by
  refine ⟨shifts_eq, ⟨xModuleSize_eq, yModuleSize_true, yModuleSize_false⟩, fun x y => ?_⟩
  constructor
  · rw [isPixelHit_iff_tests, xAxis_iff, yAxis_iff]
    simp
  · rw [isPixelHit_iff_tests, xAxis_iff, yAxis_iff]
    simp

/-- C9: the 2x2 acceptance region is contained in the 3x2 one, and the two calls agree
(both reject) on every point rejected because of its x coordinate or because its shifted
y coordinate is negative. -/
theorem isPixelHit_2x2_subset_3x2 (x y : CFloat) :
    (isPixelHit x y false = true → isPixelHit x y true = true) ∧
    ((flt (tmpXlocalCoordinate x) (ofIntF 0) = true ∨
        fgt (tmpXlocalCoordinate x) (ofIntF xModuleSize) = true ∨
        flt (tmpYlocalCoordinate y) (ofIntF 0) = true) →
      isPixelHit x y false = isPixelHit x y true ∧ isPixelHit x y true = false) := by
  constructor
  · rw [isPixelHit_iff_tests, isPixelHit_iff_tests, yModuleSize_true, yModuleSize_false,
      ofIntF_15, ofIntF_24]
    rintro ⟨hx, hy₀, hy⟩
    exact ⟨hx, hy₀, fgt_fin_mono _ _ _ (by omega) hy⟩
  · intro h
    have key : ∀ b : Bool, isPixelHit x y b = false := by
      intro b
      rw [← Bool.not_eq_true, isPixelHit_iff_tests]
      rintro ⟨⟨h₁, h₂⟩, h₃, -⟩
      rcases h with h | h | h
      · rw [h₁] at h
        exact Bool.false_ne_true h
      · rw [h₂] at h
        exact Bool.false_ne_true h
      · rw [h₃] at h
        exact Bool.false_ne_true h
    exact ⟨(key false).trans (key true).symm, key true⟩

/-- Witness of C9: the origin is accepted by both variants, and the point (8.0f, 0.0f),
whose shifted x exceeds the module size, is rejected by both. -/
theorem isPixelHit_2x2_subset_3x2_witness :
    (isPixelHit ⟨0⟩ ⟨0⟩ false = true ∧ isPixelHit ⟨0⟩ ⟨0⟩ true = true) ∧
    (fgt (tmpXlocalCoordinate ⟨0x41000000⟩) (ofIntF xModuleSize) = true ∧
      isPixelHit ⟨0x41000000⟩ ⟨0⟩ false = isPixelHit ⟨0x41000000⟩ ⟨0⟩ true ∧
      isPixelHit ⟨0x41000000⟩ ⟨0⟩ true = false) :=
  ⟨⟨isPixelHit_at_origin.1, (isPixelHit_2x2_subset_3x2 ⟨0⟩ ⟨0⟩).1 isPixelHit_at_origin.1⟩,
    ⟨tmpX_at_8_gt,
      (isPixelHit_2x2_subset_3x2 ⟨0x41000000⟩ ⟨0⟩).2 (Or.inr (Or.inl tmpX_at_8_gt))⟩⟩

/-- C10: the total pixel count is the product of the two per-axis counts,
`detPixelNo = detPixelSimXNo * detPixelSimYNo = 160 * 156 = 24960`, which is below `2 ^ 16`,
so the value kept in the `unsigned short` constant `no_of_pixels_` is the mathematical
product, not a wrapped value. -/
theorem detPixelNo_eq_product :
    detPixelNo = detPixelSimXNo * detPixelSimYNo ∧
    detPixelSimXNo * detPixelSimYNo = 160 * 156 ∧
    detPixelNo = 24960 ∧ 24960 < 2 ^ 16 ∧
    no_of_pixels_ = 160 * 156 ∧ toUShort (160 * 156) = 160 * 156 := by
  decide

end CTPPSPixelTopology

end CMSSW
